import Mathlib

/-!
Verification of the workspace discovery and cache synchronization engine of
`vscode-workspaces` (GNOME extension, `src/gnome-extension/src/core.ts`).

The TypeScript code is shallowly embedded: pure computations become Lean
functions, filesystem and subprocess observations become explicit environment
records (functions from paths/URIs to the observed answers), and JavaScript
`Set` mutation of the in-memory workspace cache becomes explicit list passing.
JS object identity (used by `Set.delete`) is modelled by a `wsId : Nat` field;
JS timestamps (`Date.now()`, millisecond integers) are modelled as `Int`.

String operations are implemented over `List Char` so that every definition
reduces in the kernel (`String.endsWith`, `String.splitOn` and friends do not).
-/

/-! ## String helpers (models of the JS string operations used by core.ts) -/

/-- Does `sub` occur at the head of `hay`?  Model of a JS prefix test. -/
def lcStartsWith (sub hay : List Char) : Bool :=
  match sub, hay with
  | [], _ => true
  | _ :: _, [] => false
  | a :: s, b :: h => a == b && lcStartsWith s h

/-- Does `sub` occur anywhere inside `hay`?  Model of JS `String.includes`. -/
def lcHasSub (hay sub : List Char) : Bool :=
  match hay with
  | [] => sub.isEmpty
  | _ :: t => lcStartsWith sub hay || lcHasSub t sub

/-- Model of JS `hay.includes(sub)`. -/
def strIncludes (s sub : String) : Bool := lcHasSub s.toList sub.toList

/-- Model of JS `s.startsWith(pre)`. -/
def strStartsWith (s pre : String) : Bool := lcStartsWith pre.toList s.toList

/-- Model of JS `s.endsWith(suffix)`. -/
def strEndsWith (s suffix : String) : Bool :=
  lcStartsWith suffix.toList.reverse s.toList.reverse

/-- Model of JS `s.toLowerCase()` (ASCII, as used on editor binary names). -/
def strToLower (s : String) : String := ⟨s.toList.map Char.toLower⟩

/-- Remove the first occurrence of `sub` from `hay` (JS `hay.replace(sub, "")`
with a plain-string pattern replaces only the first occurrence). -/
def lcReplaceFirst (hay sub : List Char) : List Char :=
  match hay with
  | [] => []
  | h :: t =>
    if lcStartsWith sub (h :: t) then (h :: t).drop sub.length
    else h :: lcReplaceFirst t sub

/-- Model of JS `s.replace(sub, "")`. -/
def strReplaceFirst (s sub : String) : String := ⟨lcReplaceFirst s.toList sub.toList⟩

/-- Model of `GLib.path_get_basename`: the component after the last `/`
(for the slash-free and non-trailing-slash inputs the engine feeds it). -/
def pathBasename (s : String) : String :=
  ⟨s.toList.foldl (fun acc c => if c == '/' then [] else acc ++ [c]) []⟩

/-! ## Data model -/

/-- The `Workspace` record of core.ts.  `wsId` stands for JS object identity
(the cache is a JS `Set<Workspace>`, whose `delete` compares by reference);
`storeDir` is an opaque handle (`Gio.File` of the store sub-directory) or
`none` for KV-extracted projects; timestamps are milliseconds. -/
structure Workspace where
  wsId : Nat
  uri : String
  storeDir : Option Nat
  nofail : Bool
  remote : Bool
  lastAccessed : Option Int
  editor : Option String
deriving DecidableEq, Repr

/-- The fields of a directory-store `workspace.json` record that
`_parseWorkspaceJson` reads: optional `folder` / `workspace` URI strings and
an optional `nofail` boolean. -/
structure JsonRecord where
  folder : Option String
  workspace : Option String
  nofail : Option Bool
deriving DecidableEq, Repr

/-! ## StoreScanner: `_parseWorkspaceJson` (core.ts lines 936-962) -/

/-- JS `a || b` on two optional string fields: an absent (`undefined`) or
empty-string (falsy) `a` falls through to `b`. -/
def jsTruthyOr (a b : Option String) : Option String :=
  match a with
  | some s => if s = "" then b else some s
  | none => b

/-- `workspaceURI.startsWith('vscode-remote://') || workspaceURI.startsWith('docker://')`. -/
def isRemoteUri (u : String) : Bool :=
  strStartsWith u "vscode-remote://" || strStartsWith u "docker://"

/-- Model of `_parseWorkspaceJson`.  `file = none` means the `workspace.json`
file is absent; `file = some none` means reading or `JSON.parse` threw (both
are caught and yield `null` in the source); `file = some (some json)` is a
parsed record.  `wsId` is the identity of the freshly allocated JS object and
`storeDir` the handle of the store sub-directory. -/
def parseWorkspaceJson (wsId : Nat) (file : Option (Option JsonRecord)) (storeDir : Nat) :
    Option Workspace :=
  match file with
  | none => none
  | some none => none
  | some (some json) =>
    match jsTruthyOr json.folder json.workspace with
    | none => none
    | some uri =>
      if uri = "" then none
      else
        some { wsId := wsId, uri := uri, storeDir := some storeDir,
               nofail := json.nofail == some true, remote := isRemoteUri uri,
               lastAccessed := none, editor := none }

/-! ## Claims C8 and C10: store-record parsing -/

/-- C8 (counterexample): the claim says "when a field is present, `folder`
wins over `workspace`", but a record with `folder` present as the empty
string and `workspace = "file:///w"` parses to a Workspace whose uri is the
`workspace` value — the present `folder` field did not win. -/
theorem C8_folder_present_cex :
    ({ folder := some "", workspace := some "file:///w", nofail := none } : JsonRecord).folder ≠
      none ∧
    (parseWorkspaceJson 0
        (some (some { folder := some "", workspace := some "file:///w", nofail := none }))
        0).map Workspace.uri = some "file:///w" := by
  constructor
  · simp
  · rfl

/-- C8 (amended): a record with neither a truthy `folder` nor a truthy
`workspace` (each absent or the empty string) always yields no Workspace, as
does an absent or unparsable record file (both non-fatal: the function totally
returns `none` and the scan skips the entry); when a field is present with a
non-empty (JS-truthy) value, `folder` wins over `workspace`. -/
theorem C8_parse_no_record (wsId sd : Nat) :
    parseWorkspaceJson wsId none sd = none ∧
    parseWorkspaceJson wsId (some none) sd = none ∧
    (∀ json : JsonRecord, (json.folder = none ∨ json.folder = some "") →
      (json.workspace = none ∨ json.workspace = some "") →
      parseWorkspaceJson wsId (some (some json)) sd = none) ∧
    (∀ json : JsonRecord, ∀ f : String, json.folder = some f → f ≠ "" →
      (parseWorkspaceJson wsId (some (some json)) sd).map Workspace.uri = some f) := by
  refine ⟨rfl, rfl, ?_, ?_⟩
  · intro json hf hw
    rcases hf with hf | hf <;> rcases hw with hw | hw <;>
      simp [parseWorkspaceJson, jsTruthyOr, hf, hw]
  · intro json f hf hne
    simp [parseWorkspaceJson, jsTruthyOr, hf, hne]

/-- C8 witness: the amended theorem applied at a concrete record. -/
theorem C8_parse_no_record_witness :
    (({ folder := none, workspace := some "", nofail := none } : JsonRecord).folder = none ∨
      ({ folder := none, workspace := some "", nofail := none } : JsonRecord).folder = some "") ∧
    parseWorkspaceJson 3
      (some (some { folder := none, workspace := some "", nofail := none })) 5 = none ∧
    (parseWorkspaceJson 3
      (some (some { folder := some "file:///f", workspace := some "file:///w", nofail := none }))
      5).map Workspace.uri = some "file:///f" :=
  ⟨Or.inl rfl,
   (C8_parse_no_record 3 5).2.2.1 _ (Or.inl rfl) (Or.inr rfl),
   (C8_parse_no_record 3 5).2.2.2 _ "file:///f" rfl (by decide)⟩

/-- C10: extraction keys on JS truthiness, not field presence: with
`folder = ""` and a non-empty `workspace` string W the produced Workspace has
uri = W, and with `folder = ""` and an absent or empty `workspace` no
Workspace is produced. -/
theorem C10_empty_folder_truthiness (wsId sd : Nat) (nf : Option Bool) :
    (∀ W : String, W ≠ "" →
      (parseWorkspaceJson wsId (some (some ⟨some "", some W, nf⟩)) sd).map Workspace.uri =
        some W) ∧
    parseWorkspaceJson wsId (some (some ⟨some "", none, nf⟩)) sd = none ∧
    parseWorkspaceJson wsId (some (some ⟨some "", some "", nf⟩)) sd = none := by
  refine ⟨?_, ?_, ?_⟩
  · intro W hW
    simp [parseWorkspaceJson, jsTruthyOr, hW]
  · simp [parseWorkspaceJson, jsTruthyOr]
  · simp [parseWorkspaceJson, jsTruthyOr]

/-- C10 witness: the theorem applied at the concrete workspace value `file:///w`. -/
theorem C10_empty_folder_truthiness_witness :
    ("file:///w" : String) ≠ "" ∧
    (parseWorkspaceJson 0 (some (some ⟨some "", some "file:///w", none⟩)) 0).map Workspace.uri =
      some "file:///w" :=
  ⟨by decide, (C10_empty_folder_truthiness 0 0 none).1 "file:///w" (by decide)⟩

/-! ## WorkspaceCache eviction: `_performCacheCleanup` (core.ts lines 1328-1352) -/

/-- `workspace.lastAccessed || 0` — the timestamp used for sorting and aging. -/
def laD (w : Workspace) : Int := w.lastAccessed.getD 0

/-- `const maxAge = 30 * 24 * 60 * 60 * 1000` (30 days in milliseconds). -/
def cacheMaxAge : Int := 30 * 24 * 60 * 60 * 1000

/-- `const maxCacheSize = 100`. -/
def maxCacheSize : Nat := 100

/-- Model of `_performCacheCleanup`: only when the cache size strictly exceeds
`maxCacheSize` does it delete every workspace whose `lastAccessed || 0` is more
than `maxAge` in the past (the JS code collects those into `oldWorkspaces` and
deletes each from the `Set`; on a list of distinct objects this is the filter
keeping the non-old entries). -/
def performCacheCleanup (now : Int) (cache : List Workspace) : List Workspace :=
  if maxCacheSize < cache.length then
    cache.filter (fun w => ! decide (cacheMaxAge < now - laD w))
  else cache

/-- C4: eviction removes a record only when the cache's total size strictly
exceeds 100; in that case it removes exactly the records whose `lastAccessed`
is older than 30 days (all of them and no others, even if the cache stays
above 100 afterwards); at size at most 100 it removes nothing regardless of
record age. -/
theorem C4_lazy_eviction (now : Int) (cache : List Workspace) :
    (100 < cache.length →
      performCacheCleanup now cache =
        cache.filter (fun w => ! decide (cacheMaxAge < now - laD w)) ∧
      (∀ w : Workspace, w ∈ performCacheCleanup now cache ↔
        w ∈ cache ∧ now - laD w ≤ cacheMaxAge)) ∧
    (cache.length ≤ 100 → performCacheCleanup now cache = cache) := by
  constructor
  · intro h
    have hif : performCacheCleanup now cache =
        cache.filter (fun w => ! decide (cacheMaxAge < now - laD w)) := by
      simp [performCacheCleanup, maxCacheSize, h]
    refine ⟨hif, ?_⟩
    intro w
    rw [hif]
    simp only [List.mem_filter, Bool.not_eq_true', decide_eq_false_iff_not, not_lt]
  · intro h
    have hle : ¬ (maxCacheSize < cache.length) := by
      simp only [maxCacheSize]
      omega
    simp [performCacheCleanup, hle]

/-- Concrete cache of 101 distinct records whose timestamps `1000 - i` are all
more than 30 days older than the probe time `3000000000`. -/
def cache101 : List Workspace :=
  (List.range 101).map
    (fun i => { wsId := i, uri := "u", storeDir := none, nofail := false,
                remote := false, lastAccessed := some ((1000 : Int) - i), editor := none })

/-- C4 witness: the theorem applied to a cache of 101 records. -/
theorem C4_lazy_eviction_witness :
    100 < cache101.length ∧
    performCacheCleanup 3000000000 cache101 =
      cache101.filter (fun w => ! decide (cacheMaxAge < 3000000000 - laD w)) :=
  ⟨by decide, ((C4_lazy_eviction 3000000000 cache101).1 (by decide)).1⟩

/-! ## RefreshScheduler: `_updateRefreshInterval` and `_recordUserInteraction`
(core.ts lines 1625-1657) -/

/-- `this._minRefreshInterval = 30` (seconds). -/
def minRefreshInterval : Nat := 30

/-- `this._maxRefreshInterval = 300` (seconds). -/
def maxRefreshInterval : Nat := 300

/-- `Math.round(n * 1.5)` for a natural `n`: exact when `n` is even, and a
half rounds up (JS `Math.round` rounds halves toward positive infinity), which
is `(3n + 1) / 2` in integer arithmetic. -/
def jsRound3Halves (n : Nat) : Nat := (3 * n + 1) / 2

/-- Model of `_updateRefreshInterval`: if the user interacted less than five
minutes ago (`lastInteraction > 0 && now - lastInteraction < 5*60*1000`), snap
to the minimum interval; otherwise grow by the factor 1.5, rounded, capped at
the maximum. -/
def updateRefreshInterval (now lastInteraction : Int) (cur : Nat) : Nat :=
  if 0 < lastInteraction ∧ now - lastInteraction < 5 * 60 * 1000 then
    minRefreshInterval
  else
    min (jsRound3Halves cur) maxRefreshInterval

/-- The interval part of `_recordUserInteraction`: reset to the minimum
whenever the current interval exceeds it (it also stores `lastInteraction :=
Date.now()` and re-arms the timer, which have no effect on the interval
value). -/
def recordUserInteractionInterval (cur : Nat) : Nat :=
  if minRefreshInterval < cur then minRefreshInterval else cur

/-- C6 (counterexample): with no interaction ever (`lastInteraction = 0`),
three successive ticks from 30 give 45, 68 and then 102 — not 101 as the
claimed sequence 30, 45, 68, 101, 152, 228, 300 states (the claim's own
formula gives `min(round(68 * 1.5), 300) = 102`). -/
theorem C6_interval_sequence_cex :
    updateRefreshInterval 10000000 0 30 = 45 ∧
    updateRefreshInterval 10000000 0 45 = 68 ∧
    updateRefreshInterval 10000000 0 68 = 102 ∧ (102 : Nat) ≠ 101 := by
  refine ⟨?_, ?_, ?_, by decide⟩ <;>
    simp [updateRefreshInterval, jsRound3Halves, minRefreshInterval, maxRefreshInterval]

/-- C6 (amended): starting from 30 with no qualifying user interaction,
successive ticks set the interval to `min(round(cur * 1.5), 300)`, producing
30, 45, 68, 102, 153, 230, 300, staying capped at 300 thereafter; any user
interaction immediately resets the interval to 30. -/
theorem C6_interval_sequence (now last : Int)
    (hno : ¬(0 < last ∧ now - last < 5 * 60 * 1000)) :
    updateRefreshInterval now last 30 = 45 ∧
    updateRefreshInterval now last 45 = 68 ∧
    updateRefreshInterval now last 68 = 102 ∧
    updateRefreshInterval now last 102 = 153 ∧
    updateRefreshInterval now last 153 = 230 ∧
    updateRefreshInterval now last 230 = 300 ∧
    updateRefreshInterval now last 300 = 300 ∧
    (∀ cur : Nat, updateRefreshInterval now last cur ≤ 300) ∧
    (∀ cur : Nat, minRefreshInterval ≤ cur → recordUserInteractionInterval cur = 30) := by
  have hstep : ∀ cur : Nat,
      updateRefreshInterval now last cur = min (jsRound3Halves cur) maxRefreshInterval := by
    intro cur
    unfold updateRefreshInterval
    rw [if_neg hno]
  refine ⟨?_, ?_, ?_, ?_, ?_, ?_, ?_, ?_, ?_⟩
  · rw [hstep]; decide
  · rw [hstep]; decide
  · rw [hstep]; decide
  · rw [hstep]; decide
  · rw [hstep]; decide
  · rw [hstep]; decide
  · rw [hstep]; decide
  · intro cur
    rw [hstep]
    exact Nat.min_le_right _ _
  · intro cur hcur
    simp only [recordUserInteractionInterval, minRefreshInterval] at hcur ⊢
    split
    · rfl
    · omega

/-- C6 witness: the amended theorem at `now = 1000000`, `lastInteraction = 0`
(no interaction ever), checking the first capped step concretely. -/
theorem C6_interval_sequence_witness :
    ¬((0 : Int) < 0 ∧ (1000000 : Int) - 0 < 5 * 60 * 1000) ∧
    updateRefreshInterval 1000000 0 230 = 300 :=
  ⟨by decide, (C6_interval_sequence 1000000 0 (by decide)).2.2.2.2.2.1⟩

/-! ## EditorRegistry: custom-editor storage-path guess in `_setActiveEditor`
(core.ts lines 411-450) -/

/-- `Code - Insiders/User/workspaceStorage` under the user config dir. -/
def insidersStoragePath (cfg : String) : String := cfg ++ "/Code - Insiders/User/workspaceStorage"

/-- `VSCodium/User/workspaceStorage` under the user config dir. -/
def codiumStoragePath (cfg : String) : String := cfg ++ "/VSCodium/User/workspaceStorage"

/-- `Cursor/User/workspaceStorage` under the user config dir. -/
def cursorStoragePath (cfg : String) : String := cfg ++ "/Cursor/User/workspaceStorage"

/-- `Code/User/workspaceStorage` under the user config dir. -/
def defaultStoragePath (cfg : String) : String := cfg ++ "/Code/User/workspaceStorage"

/-- The fallback `<basename>/User/workspaceStorage` guess (the basename is used
verbatim, not lowercased). -/
def genericStoragePath (cfg name : String) : String := cfg ++ "/" ++ name ++ "/User/workspaceStorage"

/-- Model of the storage-path guess for a custom editor binary in
`_setActiveEditor`: the rule table over `insiders` / `codium` / `cursor` /
default is entered only when the lowercased basename contains `code` or
`codium`; every other basename gets the generic guess.
`GLib.build_filenamev` is modelled as `/`-joining. -/
def guessCustomWorkspacePath (cfg customName : String) : String :=
  let lower := strToLower customName
  if strIncludes lower "code" || strIncludes lower "codium" then
    if strIncludes lower "insiders" then insidersStoragePath cfg
    else if strIncludes lower "codium" then codiumStoragePath cfg
    else if strIncludes lower "cursor" then cursorStoragePath cfg
    else defaultStoragePath cfg
  else genericStoragePath cfg customName

/-- C7 (counterexample): the basename `cursor` contains "cursor" and neither
"insiders" nor "codium", so the claimed rule table assigns it the Cursor
storage path; the code, whose rule table is guarded by the basename containing
"code" or "codium", instead produces the generic guess
`cursor/User/workspaceStorage`, which differs from the Cursor path. -/
theorem C7_cursor_guess_cex :
    strIncludes (strToLower "cursor") "cursor" = true ∧
    strIncludes (strToLower "cursor") "insiders" = false ∧
    strIncludes (strToLower "cursor") "codium" = false ∧
    guessCustomWorkspacePath "/home/u/.config" "cursor" =
      genericStoragePath "/home/u/.config" "cursor" ∧
    guessCustomWorkspacePath "/home/u/.config" "cursor" ≠
      cursorStoragePath "/home/u/.config" := by
  refine ⟨by decide, by decide, by decide, by decide, by decide⟩

/-- C7 (amended): the ordered case-insensitive rule table over the binary
basename (contains "insiders" gets the insiders path, else contains "codium"
the codium path, else contains "cursor" the cursor path, else the default
path) applies only to basenames containing "code" or "codium"; any other
basename — including one containing "cursor" alone — gets the generic
`<basename>/User/workspaceStorage` guess.  In particular a basename containing
both "cursor" and "code" (and not "insiders" or "codium") is guessed as the
Cursor storage path. -/
theorem C7_storage_path_rules (cfg name : String) :
    (strIncludes (strToLower name) "code" = false →
      strIncludes (strToLower name) "codium" = false →
      guessCustomWorkspacePath cfg name = genericStoragePath cfg name) ∧
    ((strIncludes (strToLower name) "code" = true ∨
        strIncludes (strToLower name) "codium" = true) →
      (strIncludes (strToLower name) "insiders" = true →
        guessCustomWorkspacePath cfg name = insidersStoragePath cfg) ∧
      (strIncludes (strToLower name) "insiders" = false →
        strIncludes (strToLower name) "codium" = true →
        guessCustomWorkspacePath cfg name = codiumStoragePath cfg) ∧
      (strIncludes (strToLower name) "insiders" = false →
        strIncludes (strToLower name) "codium" = false →
        strIncludes (strToLower name) "cursor" = true →
        guessCustomWorkspacePath cfg name = cursorStoragePath cfg) ∧
      (strIncludes (strToLower name) "insiders" = false →
        strIncludes (strToLower name) "codium" = false →
        strIncludes (strToLower name) "cursor" = false →
        guessCustomWorkspacePath cfg name = defaultStoragePath cfg)) := by
  constructor
  · intro h1 h2
    simp [guessCustomWorkspacePath, h1, h2]
  · intro hguard
    have hg : (strIncludes (strToLower name) "code" ||
        strIncludes (strToLower name) "codium") = true := by
      rcases hguard with h | h <;> simp [h]
    refine ⟨?_, ?_, ?_, ?_⟩
    · intro hin
      simp [guessCustomWorkspacePath, hg, hin]
    · intro hin hcodium
      simp [guessCustomWorkspacePath, hg, hin, hcodium]
    · intro hin hcodium hcursor
      have hcode : strIncludes (strToLower name) "code" = true := by
        rcases hguard with h | h
        · exact h
        · rw [h] at hcodium
          exact absurd hcodium (by simp)
      simp [guessCustomWorkspacePath, hcode, hin, hcodium, hcursor]
    · intro hin hcodium hcursor
      have hcode : strIncludes (strToLower name) "code" = true := by
        rcases hguard with h | h
        · exact h
        · rw [h] at hcodium
          exact absurd hcodium (by simp)
      simp [guessCustomWorkspacePath, hcode, hin, hcodium, hcursor]

/-- C7 witness: the amended theorem at the basename `code-cursor`, which
contains both "code" and "cursor" and is guessed as the Cursor storage path. -/
theorem C7_storage_path_rules_witness :
    strIncludes (strToLower "code-cursor") "code" = true ∧
    strIncludes (strToLower "code-cursor") "insiders" = false ∧
    strIncludes (strToLower "code-cursor") "codium" = false ∧
    strIncludes (strToLower "code-cursor") "cursor" = true ∧
    guessCustomWorkspacePath "/cfg" "code-cursor" = cursorStoragePath "/cfg" :=
  ⟨by decide, by decide, by decide, by decide,
   ((C7_storage_path_rules "/cfg" "code-cursor").2 (Or.inl (by decide))).2.2.1
     (by decide) (by decide) (by decide)⟩

/-! ## KVProjectExtractor: `_extractZedProjectsWithoutSqlite`
(core.ts lines 1831-1885) -/

/-- Environment for the filesystem-heuristic fallback: the home directory,
the directories recovered from the recently-used registry
(`_getRecentDirectories`), which directories exist, and what
`_scanForProjects` emits for a given root with a given remaining budget. -/
structure ZedEnv where
  homeDir : String
  recentDirs : List String
  dirExists : String → Bool
  scanProjects : String → Nat → List String

/-- `const maxProjects = 25`. -/
def maxZedProjects : Nat := 25

/-- The fixed common project locations checked under the home directory,
followed by the recently-used directories. -/
def zedCommonLocations (env : ZedEnv) : List String :=
  [env.homeDir ++ "/Projects", env.homeDir ++ "/Development", env.homeDir ++ "/src",
   env.homeDir ++ "/Code", env.homeDir ++ "/git", env.homeDir ++ "/workspace",
   env.homeDir ++ "/workspaces", env.homeDir ++ "/work", env.homeDir ++ "/GitHub",
   env.homeDir ++ "/github", env.homeDir ++ "/GitLab", env.homeDir ++ "/gitlab"] ++
  env.recentDirs

/-- One iteration of the `commonLocations.forEach` loop: state is (emitted
project paths, `foundAnyProjects`, `projectCount`); a location is skipped once
the cap is reached or when the directory does not exist; otherwise
`_scanForProjects` runs with the remaining budget. -/
def zedScanStep (env : ZedEnv) (st : List String × Bool × Nat) (loc : String) :
    List String × Bool × Nat :=
  if maxZedProjects ≤ st.2.2 then st
  else if env.dirExists loc then
    let r := env.scanProjects loc (maxZedProjects - st.2.2)
    (st.1 ++ r, st.2.1 || !r.isEmpty, st.2.2 + r.length)
  else st

/-- Model of `_extractZedProjectsWithoutSqlite`: the emitted project paths are
those found while scanning the common locations, plus the home directory as a
single last-resort fallback when no location yielded any project. -/
def extractZedProjectsWithoutSqlite (env : ZedEnv) : List String :=
  let res := (zedCommonLocations env).foldl (zedScanStep env) ([], false, 0)
  res.1 ++ (if res.2.1 then [] else [env.homeDir])

/-- `_addZedProject` normalizes a project path to a `file://` URI. -/
def zedUri (p : String) : String :=
  if strStartsWith p "file://" then p else "file://" ++ p

/-- C9: when no scanned location yields any project (and hence also when the
recently-used registry contributes nothing), the filesystem-heuristic fallback
emits exactly one record, the home directory, whose ingestion URI is
`file://<home>`. -/
theorem C9_zed_home_fallback (env : ZedEnv)
    (hempty : ∀ loc budget, env.scanProjects loc budget = []) :
    extractZedProjectsWithoutSqlite env = [env.homeDir] ∧
    (strStartsWith env.homeDir "file://" = false →
      zedUri env.homeDir = "file://" ++ env.homeDir) := by
  constructor
  · have hfold : ∀ locs : List String,
        locs.foldl (zedScanStep env) ([], false, 0) = ([], false, 0) := by
      intro locs
      induction locs with
      | nil => rfl
      | cons l ls ih =>
        have hone : zedScanStep env ([], false, 0) l = ([], false, 0) := by
          simp [zedScanStep, hempty, maxZedProjects]
        simpa [List.foldl_cons, hone] using ih
    simp [extractZedProjectsWithoutSqlite, hfold (zedCommonLocations env)]
  · intro h
    simp [zedUri, h]

/-- C9 witness: the theorem applied to a concrete environment in which every
scan comes back empty. -/
theorem C9_zed_home_fallback_witness :
    (∀ loc budget,
      (ZedEnv.mk "/home/u" [] (fun _ => true) (fun _ _ => [])).scanProjects loc budget = []) ∧
    extractZedProjectsWithoutSqlite (ZedEnv.mk "/home/u" [] (fun _ => true) (fun _ _ => [])) =
      ["/home/u"] ∧
    zedUri "/home/u" = "file:///home/u" :=
  ⟨fun _ _ => rfl,
   (C9_zed_home_fallback _ (fun _ _ => rfl)).1,
   by decide⟩

/-! ## OrphanReconciler and cache ingestion: `_processWorkspace`
(core.ts lines 1229-1262) -/

/-- Environment observed by `_processWorkspace`: whether a URI's target
exists, the two configuration flags it reads, the URI rewrite performed by
`_maybePreferWorkspaceFile` (identity when the target is not a directory or
holds no `.code-workspace` child), whether `Gio.File.trash` succeeds
(consulted by the source only for logging), and the current time. -/
structure ScanEnv where
  uriExists : String → Bool
  cleanupOrphaned : Bool
  preferWorkspaceFile : Bool
  preferRewrite : String → String
  trashSucceeds : Bool
  now : Int

/-- The URI under which a valid record is dedup-checked and inserted: the
original URI, or the `_maybePreferWorkspaceFile` rewrite when the
prefer-workspace-file setting is on. -/
def effectiveUri (env : ScanEnv) (ws : Workspace) : String :=
  if env.preferWorkspaceFile then env.preferRewrite ws.uri else ws.uri

/-- Model of `_processWorkspace`.  Returns the new cache and whether archival
(`storeDir?.trash`) was requested.  A missing target with cleanup enabled and
`nofail` unset deletes the record from the `Set` (by object identity) and
requests the trash operation (which runs only when a `storeDir` is attached,
and whose failure only logs); otherwise a missing target leaves the cache
untouched.  An existing target is rewritten by `_maybePreferWorkspaceFile`
when configured, dropped if its URI is already cached, and otherwise inserted
with `lastAccessed = Date.now()`. -/
def processWorkspace (env : ScanEnv) (cache : List Workspace) (ws : Workspace) :
    List Workspace × Bool :=
  if env.uriExists ws.uri = false then
    if env.cleanupOrphaned && !ws.nofail then
      (cache.filter (fun w => !(w.wsId == ws.wsId)), ws.storeDir.isSome)
    else
      (cache, false)
  else
    let ws1 : Workspace := { ws with uri := effectiveUri env ws }
    if cache.any (fun w => w.uri == ws1.uri) then
      (cache, false)
    else
      (cache ++ [{ ws1 with lastAccessed := some env.now }], false)

/-- C5: for a scanned record whose target is missing, with orphan cleanup
enabled and `nofail` false, archival of the store record is requested (when a
store record is attached) and the record is dropped from the cache, with the
same outcome whether or not the trash operation succeeds; otherwise (cleanup
disabled or `nofail` true) the cache is left untouched and no archival is
requested. -/
theorem C5_orphan_policy (env : ScanEnv) (cache : List Workspace) (ws : Workspace)
    (hmiss : env.uriExists ws.uri = false) :
    (env.cleanupOrphaned = true → ws.nofail = false →
      (processWorkspace env cache ws).1 = cache.filter (fun w => !(w.wsId == ws.wsId)) ∧
      (processWorkspace env cache ws).2 = ws.storeDir.isSome ∧
      (∀ b : Bool,
        processWorkspace { env with trashSucceeds := b } cache ws =
          processWorkspace env cache ws)) ∧
    ((env.cleanupOrphaned = false ∨ ws.nofail = true) →
      processWorkspace env cache ws = (cache, false)) := by
  constructor
  · intro hc hn
    refine ⟨?_, ?_, ?_⟩
    · simp [processWorkspace, hmiss, hc, hn]
    · simp [processWorkspace, hmiss, hc, hn]
    · intro b
      simp [processWorkspace, hmiss, effectiveUri]
  · intro h
    rcases h with h | h <;> simp [processWorkspace, hmiss, h]

/-- C5 witness: the theorem applied to a concrete orphaned record under both
policy outcomes (cleanup on with `nofail` false at this input). -/
theorem C5_orphan_policy_witness :
    (ScanEnv.mk (fun _ => false) true false id false 0).uriExists "file:///gone" = false ∧
    (processWorkspace (ScanEnv.mk (fun _ => false) true false id false 0)
      [{ wsId := 1, uri := "file:///kept", storeDir := none, nofail := false,
         remote := false, lastAccessed := none, editor := none }]
      { wsId := 2, uri := "file:///gone", storeDir := some 9, nofail := false,
        remote := false, lastAccessed := none, editor := none }).2 = true :=
  ⟨rfl,
   by
    have h := (C5_orphan_policy (ScanEnv.mk (fun _ => false) true false id false 0)
      [{ wsId := 1, uri := "file:///kept", storeDir := none, nofail := false,
         remote := false, lastAccessed := none, editor := none }]
      { wsId := 2, uri := "file:///gone", storeDir := some 9, nofail := false,
        remote := false, lastAccessed := none, editor := none } rfl).1 rfl rfl
    rw [h.2.1]
    rfl⟩

/-! ## The nofail protection: `_maybeUpdateWorkspaceNoFail`
(core.ts lines 984-1017), run on each parsed record before `_processWorkspace` -/

/-- The workspace name the code checks against the nofail list: the URI
basename, with the FIRST occurrence of `.code-workspace` removed whenever the
basename ends with `.code-workspace` (JS `replace` with a string pattern
replaces the first occurrence, not the trailing suffix). -/
def codeNofailName (uri : String) : String :=
  let b := pathBasename uri
  if strEndsWith b ".code-workspace" then strReplaceFirst b ".code-workspace" else b

/-- The workspace name as the spec words it ("URI basename, `.code-workspace`
suffix stripped"): written from the spec's words, to be compared with
`codeNofailName`, the name the source computes. -/
def specNofailName (uri : String) : String :=
  let b := pathBasename uri
  if strEndsWith b ".code-workspace" then ⟨b.toList.take (b.toList.length - 15)⟩ else b

/-- Environment for the store-record rewrite in `_maybeUpdateWorkspaceNoFail`:
`ioOk` is true when loading `workspace.json`, parsing it and replacing its
contents all succeed (any failure is caught, logged, and leaves the in-memory
flag unchanged). -/
structure NoFailEnv where
  ioOk : Bool

/-- Model of `_maybeUpdateWorkspaceNoFail`: when the computed name is in the
nofail list and the flag is not already set, and a store directory is
attached, and the read-modify-rewrite succeeds, the record is rewritten with
`nofail: true` and the in-memory flag is set.  Returns the (possibly updated)
workspace and whether the store record was rewritten. -/
def maybeUpdateWorkspaceNoFail (env : NoFailEnv) (nofailList : List String) (ws : Workspace) :
    Workspace × Bool :=
  if nofailList.contains (codeNofailName ws.uri) && !ws.nofail then
    match ws.storeDir with
    | none => (ws, false)
    | some _ => if env.ioOk then ({ ws with nofail := true }, true) else (ws, false)
  else
    (ws, false)

/-- C3 (counterexample): for the basename `.code-workspaceA.code-workspace`,
stripping the trailing `.code-workspace` suffix gives `.code-workspaceA`,
which is in the nofail list; but the code removes the FIRST occurrence of
`.code-workspace` instead, computes the name `A.code-workspace`, finds it not
in the list, leaves `nofail` false and does not rewrite the record — and the
workspace IS archived (trash requested) when its target is missing with
cleanup enabled, contradicting the claim. -/
theorem C3_nofail_cex :
    [".code-workspaceA"].contains
      (specNofailName "file:///home/u/.code-workspaceA.code-workspace") = true ∧
    (maybeUpdateWorkspaceNoFail ⟨true⟩ [".code-workspaceA"]
      { wsId := 7, uri := "file:///home/u/.code-workspaceA.code-workspace",
        storeDir := some 7, nofail := false, remote := false,
        lastAccessed := none, editor := none }).1.nofail = false ∧
    (maybeUpdateWorkspaceNoFail ⟨true⟩ [".code-workspaceA"]
      { wsId := 7, uri := "file:///home/u/.code-workspaceA.code-workspace",
        storeDir := some 7, nofail := false, remote := false,
        lastAccessed := none, editor := none }).2 = false ∧
    (processWorkspace (ScanEnv.mk (fun _ => false) true false id true 0) []
      (maybeUpdateWorkspaceNoFail ⟨true⟩ [".code-workspaceA"]
        { wsId := 7, uri := "file:///home/u/.code-workspaceA.code-workspace",
          storeDir := some 7, nofail := false, remote := false,
          lastAccessed := none, editor := none }).1).2 = true := by
  refine ⟨by decide, by decide, by decide, by decide⟩

/-- C3 (amended): for every workspace whose name AS THE CODE COMPUTES IT
(URI basename with the first occurrence of `.code-workspace` removed when the
basename ends with that suffix) is in the nofail list, provided a store
record is attached and its read-modify-rewrite succeeds: once observed, the
workspace's `nofail` flag is true, the store record is rewritten with
`nofail: true` whenever the flag was not already set, and the workspace is
never archived — even with orphan cleanup enabled and its target missing,
`_processWorkspace` requests no trash and leaves the cache untouched. -/
theorem C3_nofail_protection (env : NoFailEnv) (nofailList : List String) (ws : Workspace)
    (hname : nofailList.contains (codeNofailName ws.uri) = true)
    (hstore : ws.storeDir.isSome = true) (hio : env.ioOk = true) :
    (maybeUpdateWorkspaceNoFail env nofailList ws).1.nofail = true ∧
    (ws.nofail = false → (maybeUpdateWorkspaceNoFail env nofailList ws).2 = true) ∧
    (∀ senv : ScanEnv, ∀ cache : List Workspace,
      senv.uriExists (maybeUpdateWorkspaceNoFail env nofailList ws).1.uri = false →
      processWorkspace senv cache (maybeUpdateWorkspaceNoFail env nofailList ws).1 =
        (cache, false)) := by
  have hupd : (maybeUpdateWorkspaceNoFail env nofailList ws).1.nofail = true ∧
      (ws.nofail = false → (maybeUpdateWorkspaceNoFail env nofailList ws).2 = true) := by
    by_cases hnf : ws.nofail = true
    · simp [maybeUpdateWorkspaceNoFail, hnf]
    · have hnf' : ws.nofail = false := by
        cases h : ws.nofail
        · rfl
        · exact absurd h hnf
      cases hsd : ws.storeDir with
      | none => rw [hsd] at hstore; exact absurd hstore (by simp)
      | some d =>
        have hmem : codeNofailName ws.uri ∈ nofailList := by
          simpa using hname
        simp [maybeUpdateWorkspaceNoFail, hname, hmem, hnf', hsd, hio]
  refine ⟨hupd.1, hupd.2, ?_⟩
  intro senv cache hmiss
  have := (C5_orphan_policy senv cache (maybeUpdateWorkspaceNoFail env nofailList ws).1
    hmiss).2 (Or.inr hupd.1)
  exact this

/-- C3 witness: the amended theorem applied to a workspace named `proj` that
is on the nofail list, with a store record attached and the rewrite
succeeding. -/
theorem C3_nofail_protection_witness :
    ["proj"].contains
      (codeNofailName ("file:///home/u/proj" : String)) = true ∧
    (Workspace.mk 4 "file:///home/u/proj" (some 3) false false none none).storeDir.isSome =
      true ∧
    (NoFailEnv.mk true).ioOk = true ∧
    (maybeUpdateWorkspaceNoFail (NoFailEnv.mk true) ["proj"]
      (Workspace.mk 4 "file:///home/u/proj" (some 3) false false none none)).1.nofail = true :=
  ⟨by decide, rfl, rfl,
   (C3_nofail_protection (NoFailEnv.mk true) ["proj"]
     (Workspace.mk 4 "file:///home/u/proj" (some 3) false false none none)
     (by decide) rfl rfl).1⟩

/-! ## Claim C1: cache deduplication -/

/-- At most one cached Workspace per `uri`: pairwise-distinct uris. -/
def uniqueUris (l : List Workspace) : Prop := l.Pairwise (fun a b => a.uri ≠ b.uri)

/-- Number of cache entries carrying the uri `u`. -/
def countUri (l : List Workspace) (u : String) : Nat := l.countP (fun w => w.uri == u)

theorem countUri_append (l1 l2 : List Workspace) (u : String) :
    countUri (l1 ++ l2) u = countUri l1 u + countUri l2 u := by
  simp [countUri, List.countP_append]

theorem countUri_eq_zero {l : List Workspace} {u : String}
    (h : ∀ w ∈ l, w.uri ≠ u) : countUri l u = 0 := by
  simp only [countUri, List.countP_eq_zero]
  intro w hw
  simpa using h w hw

theorem countUri_eq_one_of_unique_mem {l : List Workspace} {w : Workspace} {u : String}
    (hu : uniqueUris l) (hw : w ∈ l) (he : w.uri = u) : countUri l u = 1 := by
  induction l with
  | nil => cases hw
  | cons a t ih =>
    simp only [uniqueUris, List.pairwise_cons] at hu
    rcases List.mem_cons.mp hw with h1 | h2
    · subst h1
      have ht : countUri t u = 0 := by
        refine countUri_eq_zero ?_
        intro b hb hbu
        exact hu.1 b hb (he.trans hbu.symm)
      simp [countUri, List.countP_cons, he] at ht ⊢
      simpa [countUri] using ht
    · have ha : (a.uri == u) = false := by
        have : a.uri ≠ u := fun hau => hu.1 w h2 (hau.trans he.symm)
        simpa using this
      have := ih hu.2 h2
      simp [countUri, List.countP_cons, ha] at this ⊢
      exact this

/-- C1: ingestion is dedup-checked by uri.  For a valid record (existing
target): processing preserves the at-most-one-Workspace-per-uri invariant,
ingesting the same record twice changes nothing the second time and leaves
exactly one cache entry for the record's (effective) uri, and — when the
prefer-workspace-file rewrite does not rename this record — ingesting a
record whose uri is already cached leaves the cache unchanged. -/
theorem C1_cache_dedup (env : ScanEnv) (cache : List Workspace) (ws : Workspace)
    (hex : env.uriExists ws.uri = true) (hu : uniqueUris cache) :
    uniqueUris (processWorkspace env cache ws).1 ∧
    (processWorkspace env (processWorkspace env cache ws).1 ws).1 =
      (processWorkspace env cache ws).1 ∧
    countUri (processWorkspace env cache ws).1 (effectiveUri env ws) = 1 ∧
    (effectiveUri env ws = ws.uri → ws.uri ∈ cache.map Workspace.uri →
      (processWorkspace env cache ws).1 = cache) := by
  by_cases hany : cache.any (fun w => w.uri == effectiveUri env ws) = true
  · have hres : processWorkspace env cache ws = (cache, false) := by
      simp [processWorkspace, hex, hany]
    obtain ⟨w, hwmem, hwuri⟩ := by simpa using List.any_eq_true.mp hany
    refine ⟨?_, ?_, ?_, ?_⟩
    · rw [hres]
      exact hu
    · rw [hres]
      simp [hres]
    · rw [hres]
      exact countUri_eq_one_of_unique_mem hu hwmem hwuri
    · intro _ _
      rw [hres]
  · have hany' : cache.any (fun w => w.uri == effectiveUri env ws) = false := by
      simpa using hany
    have hall : ∀ w ∈ cache, w.uri ≠ effectiveUri env ws := by
      intro w hw
      have := List.any_eq_false.mp hany' w hw
      simpa using this
    have hres : processWorkspace env cache ws =
        (cache ++ [{ ws with uri := effectiveUri env ws, lastAccessed := some env.now }],
          false) := by
      simp [processWorkspace, hex, hany']
    refine ⟨?_, ?_, ?_, ?_⟩
    · rw [hres]
      refine List.pairwise_append.mpr ⟨hu, by simp, ?_⟩
      intro a ha b hb
      simp only [List.mem_singleton] at hb
      subst hb
      exact hall a ha
    · rw [hres]
      have hmem2 : (cache ++
          [{ ws with uri := effectiveUri env ws, lastAccessed := some env.now }]).any
            (fun w => w.uri == effectiveUri env ws) = true := by
        simp
      simp [processWorkspace, hex, hmem2]
    · have h0 : countUri cache (effectiveUri env ws) = 0 := countUri_eq_zero hall
      rw [hres, countUri_append, h0]
      simp [countUri, List.countP_cons]
    · intro heff hmem
      obtain ⟨w, hwmem, hwuri⟩ := List.mem_map.mp hmem
      exact absurd (hwuri.trans heff.symm) (hall w hwmem)

/-- C1 witness: the theorem applied to an empty cache and a fresh valid
record. -/
theorem C1_cache_dedup_witness :
    (ScanEnv.mk (fun _ => true) false false id true 5).uriExists "file:///p" = true ∧
    uniqueUris ([] : List Workspace) ∧
    countUri
      (processWorkspace (ScanEnv.mk (fun _ => true) false false id true 5) []
        (Workspace.mk 0 "file:///p" (some 1) false false none none)).1
      (effectiveUri (ScanEnv.mk (fun _ => true) false false id true 5)
        (Workspace.mk 0 "file:///p" (some 1) false false none none)) = 1 :=
  ⟨rfl, List.Pairwise.nil,
   (C1_cache_dedup (ScanEnv.mk (fun _ => true) false false id true 5) []
     (Workspace.mk 0 "file:///p" (some 1) false false none none) rfl
     List.Pairwise.nil).2.2.1⟩

/-! ## Recent view: `_finalizeWorkspaceProcessing` (core.ts lines 1300-1326)
and the favorites partition of `_createRecentWorkspacesMenu` (lines 900-934) -/

/-- The JS sort comparator `(a, b) => bTime - aTime` keeps `a` before `b`
exactly when `bTime ≤ aTime` (JS `Array.sort` is a stable sort). -/
def wsDescLe (a b : Workspace) : Bool := decide (laD b ≤ laD a)

/-- `Array.from(this._workspaces).sort(...)`: sort by `lastAccessed || 0`
descending. -/
def sortWorkspacesByAccess (l : List Workspace) : List Workspace := l.mergeSort wsDescLe

/-- `const maxWorkspaces = 50`. -/
def maxRecentWorkspaces : Nat := 50

/-- Model of `_finalizeWorkspaceProcessing`: run the cache cleanup, sort by
`lastAccessed` descending, and keep the first 50 entries as the recent view
(the subsequent `map` to `RecentWorkspace` menu entries keeps list order and
carries `path := uri`, so the view is stated on the workspaces themselves). -/
def finalizeWorkspaceProcessing (now : Int) (cache : List Workspace) : List Workspace :=
  (sortWorkspacesByAccess (performCacheCleanup now cache)).take maxRecentWorkspaces

/-- The favorites section of `_createRecentWorkspacesMenu`: entries whose
uri (menu `path`) is in the favorites set, in view order. -/
def favoritesOf (favs : List String) (view : List Workspace) : List Workspace :=
  view.filter (fun w => favs.contains w.uri)

/-- The "Recent Workspaces" section: the non-favorite entries, in view order. -/
def othersOf (favs : List String) (view : List Workspace) : List Workspace :=
  view.filter (fun w => !favs.contains w.uri)

theorem sorted_sortWorkspacesByAccess (l : List Workspace) :
    (sortWorkspacesByAccess l).Pairwise (fun a b => laD b ≤ laD a) := by
  have h : (List.mergeSort l wsDescLe).Pairwise (fun a b => wsDescLe a b) :=
    List.sorted_mergeSort
      (by
        intro a b c hab hbc
        simp only [wsDescLe, decide_eq_true_eq] at *
        omega)
      (by
        intro a b
        simp only [wsDescLe, Bool.or_eq_true, decide_eq_true_eq]
        omega) l
  exact h.imp (fun hab => by simpa [wsDescLe] using hab)

theorem perm_sortWorkspacesByAccess (l : List Workspace) :
    List.Perm (sortWorkspacesByAccess l) l := List.mergeSort_perm l wsDescLe

/-- C2: after finalization the recent view has at most 50 entries, is sorted
by `lastAccessed` descending, and draws from the (cleaned) cache; when more
than 50 workspaces remain cached, the view has exactly 50 entries and every
entry's `lastAccessed` is at least that of every workspace left out; the menu
partitions the view into favorites (uri in the favorites set) and others,
covering the view exactly, each partition keeping the view's descending
order. -/
theorem C2_recent_view (now : Int) (cache : List Workspace) (favs : List String) :
    (finalizeWorkspaceProcessing now cache).length ≤ 50 ∧
    (finalizeWorkspaceProcessing now cache).Pairwise (fun a b => laD b ≤ laD a) ∧
    (∀ w ∈ finalizeWorkspaceProcessing now cache, w ∈ performCacheCleanup now cache) ∧
    (50 < (performCacheCleanup now cache).length →
      (finalizeWorkspaceProcessing now cache).length = 50 ∧
      ∀ x ∈ finalizeWorkspaceProcessing now cache,
        ∀ y ∈ (sortWorkspacesByAccess (performCacheCleanup now cache)).drop 50,
          laD y ≤ laD x) ∧
    List.Perm
      (favoritesOf favs (finalizeWorkspaceProcessing now cache) ++
        othersOf favs (finalizeWorkspaceProcessing now cache))
      (finalizeWorkspaceProcessing now cache) ∧
    (favoritesOf favs (finalizeWorkspaceProcessing now cache)).Pairwise
      (fun a b => laD b ≤ laD a) ∧
    (othersOf favs (finalizeWorkspaceProcessing now cache)).Pairwise
      (fun a b => laD b ≤ laD a) ∧
    (∀ w ∈ favoritesOf favs (finalizeWorkspaceProcessing now cache),
      favs.contains w.uri = true) ∧
    (∀ w ∈ othersOf favs (finalizeWorkspaceProcessing now cache),
      favs.contains w.uri = false) := by
  have hsorted := sorted_sortWorkspacesByAccess (performCacheCleanup now cache)
  have hview : (finalizeWorkspaceProcessing now cache).Pairwise
      (fun a b => laD b ≤ laD a) :=
    hsorted.sublist (List.take_sublist _ _)
  refine ⟨?_, hview, ?_, ?_, ?_, ?_, ?_, ?_, ?_⟩
  · simp [finalizeWorkspaceProcessing, List.length_take, maxRecentWorkspaces]
  · intro w hw
    have hw' : w ∈ sortWorkspacesByAccess (performCacheCleanup now cache) :=
      List.take_subset _ _ hw
    exact (perm_sortWorkspacesByAccess _).mem_iff.mp hw'
  · intro hbig
    constructor
    · have hlen : (sortWorkspacesByAccess (performCacheCleanup now cache)).length =
          (performCacheCleanup now cache).length :=
        (perm_sortWorkspacesByAccess _).length_eq
      simp only [finalizeWorkspaceProcessing, List.length_take, maxRecentWorkspaces, hlen]
      omega
    · intro x hx y hy
      have hsplit := hsorted
      rw [← List.take_append_drop maxRecentWorkspaces
        (sortWorkspacesByAccess (performCacheCleanup now cache))] at hsplit
      exact (List.pairwise_append.mp hsplit).2.2 x hx y hy
  · exact List.filter_append_perm _ _
  · exact hview.sublist (List.filter_sublist _)
  · exact hview.sublist (List.filter_sublist _)
  · intro w hw
    simp only [favoritesOf] at hw
    exact (List.mem_filter.mp hw).2
  · intro w hw
    simp only [othersOf] at hw
    have := (List.mem_filter.mp hw).2
    simpa using this

/-- A cache of 60 distinct fresh records used to witness the over-50 case. -/
def cache60 : List Workspace :=
  (List.range 60).map
    (fun i => { wsId := i, uri := "u", storeDir := none, nofail := false,
                remote := false, lastAccessed := some ((1000 : Int) - (i : Int)),
                editor := none })

/-- C2 witness: the theorem applied to 60 cached records, giving a recent
view of exactly 50. -/
theorem C2_recent_view_witness :
    50 < (performCacheCleanup 0 cache60).length ∧
    (finalizeWorkspaceProcessing 0 cache60).length = 50 :=
  ⟨by decide, ((C2_recent_view 0 cache60 ["u"]).2.2.2.1 (by decide)).1⟩
